import Mathlib

/-!
Shallow embedding of godown (HTML → Markdown converter), modelling the
fully-featured revision of godown.go: the DOM tree, the recursive
traversal `walk` with its dispatch by tag name, the helper functions
(`br`, `aroundNonWhitespace`, `bq`, `pre`, table layout) and the top-level
`Convert` entry point.  Go strings are modelled at the rune (Char) level;
the output writer is modelled by returning the appended string.
-/

namespace Godown

/-- ASCII lower-casing of a character, as strings.ToLower acts on tag names. -/
def lowerChar (c : Char) : Char :=
  if 'A' ≤ c && c ≤ 'Z' then Char.ofNat (c.toNat + 32) else c

def goLower (s : String) : String := String.mk (s.data.map lowerChar)

/-- POSIX [[:space:]] class used by the whitespace-collapsing regexp. -/
def posixSpace (c : Char) : Bool :=
  c == ' ' || c == '\t' || c == '\n' || c == '\x0b' || c == '\x0c' || c == '\r'

/-- unicode.IsSpace, used by strings.TrimSpace, strings.Fields and the
delimiter-hugging scan. -/
def uniSpace (c : Char) : Bool :=
  c == ' ' || c == '\t' || c == '\n' || c == '\x0b' || c == '\x0c' || c == '\r' ||
  c.toNat == 0x85 || c.toNat == 0xa0 || c.toNat == 0x1680 ||
  (decide (0x2000 ≤ c.toNat) && decide (c.toNat ≤ 0x200a)) ||
  c.toNat == 0x2028 || c.toNat == 0x2029 ||
  c.toNat == 0x202f || c.toNat == 0x205f || c.toNat == 0x3000

def trimLeftP (p : Char → Bool) (s : String) : String :=
  String.mk (s.data.dropWhile p)

def trimRightP (p : Char → Bool) (s : String) : String :=
  String.mk ((s.data.reverse.dropWhile p).reverse)

def trimBothP (p : Char → Bool) (s : String) : String :=
  trimRightP p (trimLeftP p s)

/-- strings.TrimSpace. -/
def trimSpaceGo (s : String) : String := trimBothP uniSpace s

/-- strings.Trim with an explicit cutset. -/
def trimCutGo (cut : List Char) (s : String) : String :=
  trimBothP (fun c => cut.contains c) s

/-- strings.TrimLeft(s, "\n"). -/
def trimLeftNl (s : String) : String := trimLeftP (fun c => c == '\n') s

/-- strings.HasSuffix(s, "\n"). -/
def endsWithNl (s : String) : Bool := s.data.getLast? == some '\n'

/-- Replace each maximal run of [[:space:]] characters by a single space,
the effect of ReplaceAllString with the pattern of one-or-more spaces. -/
def collapseAux : Bool → List Char → List Char
  | _, [] => []
  | pSp, c :: rest =>
    if posixSpace c then
      if pSp then collapseAux true rest else ' ' :: collapseAux true rest
    else c :: collapseAux false rest

def collapseWs (s : String) : String := String.mk (collapseAux false s.data)

/-- The characters matched by escapeRegex (backtick written by code point). -/
def escChar (c : Char) : Bool :=
  c == '\\' || c == '*' || c == '_' || c == '[' || c == ']' || c == '(' || c == ')' ||
  c == '<' || c == '>' || c == '#' || c == '+' || c == '-' || c == '!' || c.toNat == 0x60

/-- Prepend a backslash to every Markdown-significant character. -/
def escapeMd (s : String) : String :=
  String.mk (s.data.foldr (fun c acc => (if escChar c then ['\\', c] else [c]) ++ acc) [])

/-- strings.Split(s, "\n") on the character list; never returns an empty list. -/
def splitNlChars : List Char → List (List Char)
  | [] => [[]]
  | c :: rest =>
    if c == '\n' then [] :: splitNlChars rest
    else match splitNlChars rest with
      | [] => [[c]]
      | h :: t => (c :: h) :: t

def splitNl (s : String) : List String := (splitNlChars s.data).map String.mk

/-- strings.Fields: split around runs of unicode whitespace, dropping empties. -/
def fieldsAux : List Char → List Char → List (List Char)
  | cur, [] => if cur.isEmpty then [] else [cur.reverse]
  | cur, c :: rest =>
    if uniSpace c then
      if cur.isEmpty then fieldsAux [] rest else cur.reverse :: fieldsAux [] rest
    else fieldsAux (c :: cur) rest

def fieldsGo (s : String) : List String := (fieldsAux [] s.data).map String.mk

/-- strings.Replace(s, " ", " ", -1): U+00A0 is a single rune, so the
substring replacement is a character map. -/
def replaceNbsp (s : String) : String :=
  String.mk (s.data.map (fun c => if c.toNat == 0xa0 then ' ' else c))

def spacesStr (n : Nat) : String := String.mk (List.replicate n ' ')

def dashesStr (n : Nat) : String := String.mk (List.replicate n '-')

/-- strings.Repeat. -/
def repeatStr (s : String) (n : Nat) : String := String.join (List.replicate n s)

/-- Condensed model of go-runewidth's RuneWidth: zero-width for control
characters, width two on the East-Asian wide/fullwidth ranges, else one. -/
def wideRanges : List (Nat × Nat) :=
  [(0x1100, 0x115f), (0x2e80, 0x303e), (0x3041, 0x33ff), (0x3400, 0x4dbf),
   (0x4e00, 0x9fff), (0xa000, 0xa4cf), (0xa960, 0xa97f), (0xac00, 0xd7a3),
   (0xf900, 0xfaff), (0xfe10, 0xfe19), (0xfe30, 0xfe52), (0xfe54, 0xfe66),
   (0xfe68, 0xfe6b), (0xff00, 0xff60), (0xffe0, 0xffe6), (0x1f300, 0x1f64f),
   (0x1f900, 0x1f9ff), (0x20000, 0x2fffd), (0x30000, 0x3fffd)]

def runeWidth (c : Char) : Nat :=
  let n := c.toNat
  if n == 0 || decide (n < 0x20) || (decide (0x7f ≤ n) && decide (n < 0xa0)) then 0
  else if wideRanges.any (fun r => decide (r.1 ≤ n) && decide (n ≤ r.2)) then 2
  else 1

/-- runewidth.StringWidth: sum of the rune widths. -/
def stringWidth (s : String) : Nat := (s.data.map runeWidth).sum

/-! ## The DOM tree -/

mutual
inductive HNode : Type where
  | text : String → HNode
  | comment : String → HNode
  | elem : String → List (String × String) → HForest → HNode
  | doc : HForest → HNode

inductive HForest : Type where
  | nil : HForest
  | cons : HNode → HForest → HForest
end

/-- node.Data: the text of a text/comment node, the tag name of an element. -/
def dataOf : HNode → String
  | .text s => s
  | .comment s => s
  | .elem t _ _ => t
  | .doc _ => ""

def attrsOf : HNode → List (String × String)
  | .elem _ a _ => a
  | _ => []

/-- attr(node, key): value of the first attribute with the key, else "". -/
def attrF (attrs : List (String × String)) (key : String) : String :=
  match attrs.find? (fun a => a.1 == key) with
  | some a => a.2
  | none => ""

/-- hasClass(node, clazz): any class attribute whose fields contain clazz. -/
def hasClassF (attrs : List (String × String)) (clazz : String) : Bool :=
  attrs.any (fun a => a.1 == "class" && (fieldsGo a.2).contains clazz)

def firstLangClass : List String → String
  | [] => ""
  | cl :: rest =>
    if ("language-".data).isPrefixOf cl.data then String.mk (cl.data.drop 9)
    else firstLangClass rest

/-- langFromClass applied to a pre node with the given children: the first
child's Data must be "code"; then take the first language-xxx class. -/
def langFromCls (kids : HForest) : String :=
  match kids with
  | .cons fc _ =>
    if goLower (dataOf fc) == "code" then
      firstLangClass (fieldsGo (attrF (attrsOf fc) "class"))
    else ""
  | .nil => ""

/-- fmt %q on a printable string: wrap in quotes, escaping quote and backslash. -/
def goQuote (s : String) : String :=
  "\"" ++
    String.mk (s.data.foldr
      (fun c acc => (if c == '"' || c == '\\' then ['\\', c] else [c]) ++ acc) []) ++
  "\""

/-! ## Options and extension rules -/

structure Opt where
  GuessLang : Option (String → Except String String) := none
  Script : Bool := false
  Style : Bool := false
  TrimSpace : Bool := false
  doNotEscape : Bool := false

/-- A custom rule already closed over its continuation, as stored in
customRulesMap after Convert applies CustomRule.Rule to walk. -/
def RuleFn : Type := HNode → Nat → Opt → String

/-- The customRulesMap, modelled as the lookup function of a Go map. -/
def Rules : Type := String → Option RuleFn

def emptyRules : Rules := fun _ => none

/-- Text-node emission at the head of walk: skip all-whitespace text in
TrimSpace mode, else collapse whitespace and (unless suppressed) escape. -/
def textRender (o : Opt) (s : String) : String :=
  if o.TrimSpace && (trimSpaceGo s == "") then ""
  else
    let text := collapseWs (trimCutGo ['\t', '\r', '\n'] s)
    if o.doNotEscape then text else escapeMd text

def blockTags : List String :=
  ["br", "p", "ul", "ol", "div", "blockquote", "h1", "h2", "h3", "h4", "h5", "h6"]

/-- The boundary helper br(node, w, option), taking the previous sibling. -/
def brFn (prev : Option HNode) (o : Opt) : String :=
  match prev with
  | none => ""
  | some p =>
    if o.TrimSpace then "\n"
    else
      match p with
      | .text s =>
        let t := trimCutGo [' ', '\t'] s
        if t != "" && !(endsWithNl t) then "\n" else ""
      | .elem tag _ _ => if blockTags.contains (goLower tag) then "\n" else ""
      | _ => ""

/-- aroundNonWhitespace as a transformer of the buffered subtree output, at
the rune level: all-whitespace content passes through unchanged, otherwise
the delimiters are inserted around the non-whitespace extent.  This is the
reading used inside the String-level walk; the Go function scans and
splices the UTF-8 bytes of s (unicode.IsSpace applied to each byte value),
for which aroundNonWsBytes below is the byte-faithful embedding — the two
agree on ASCII content but not on multi-byte Unicode whitespace. -/
def hugDelims (bef aft s : String) : String :=
  if trimSpaceGo s == "" then s
  else
    let cs := s.data
    let lead := cs.takeWhile uniSpace
    let rest := cs.dropWhile uniSpace
    let core := (rest.reverse.dropWhile uniSpace).reverse
    let trail := (rest.reverse.takeWhile uniSpace).reverse
    String.mk lead ++ bef ++ String.mk core ++ aft ++ String.mk trail

/-- unicode.IsSpace applied to a single byte value, as the byte-wise scan
of aroundNonWhitespace does: rune(c) of a byte c is a Latin-1 code point,
whose space values are 0x09-0x0D, 0x20, 0x85 and 0xA0. -/
def byteIsSpace (b : Nat) : Bool :=
  b == 0x09 || b == 0x0a || b == 0x0b || b == 0x0c || b == 0x0d || b == 0x20 ||
  b == 0x85 || b == 0xa0

/-- UTF-8 encoding of one character. -/
def utf8Enc (c : Char) : List Nat :=
  let n := c.toNat
  if n < 0x80 then [n]
  else if n < 0x800 then [0xc0 + n / 0x40, 0x80 + n % 0x40]
  else if n < 0x10000 then
    [0xe0 + n / 0x1000, 0x80 + (n / 0x40) % 0x40, 0x80 + n % 0x40]
  else
    [0xf0 + n / 0x40000, 0x80 + (n / 0x1000) % 0x40, 0x80 + (n / 0x40) % 0x40,
     0x80 + n % 0x40]

def utf8List (l : List Char) : List Nat := l.foldr (fun c acc => utf8Enc c ++ acc) []

/-- The UTF-8 byte string underlying a Go string. -/
def strBytes (s : String) : List Nat := utf8List s.data

/-- The byte-index splice of aroundNonWhitespace:
s[:start] + before + s[start:stop] + after + s[stop:], where start and
stop are found by scanning bytes from each end while unicode.IsSpace
holds of the byte value. -/
def hugBytes (bef aft s : List Nat) : List Nat :=
  let lead := s.takeWhile byteIsSpace
  let rest := s.dropWhile byteIsSpace
  let core := (rest.reverse.dropWhile byteIsSpace).reverse
  let trail := (rest.reverse.takeWhile byteIsSpace).reverse
  lead ++ bef ++ core ++ aft ++ trail

/-- Byte-faithful aroundNonWhitespace: the rune-level TrimSpace emptiness
test of the Go code, then the byte-level scan and splice on the UTF-8
encoding of the buffered content and delimiters. -/
def aroundNonWsBytes (bef aft s : String) : List Nat :=
  if trimSpaceGo s == "" then strBytes s
  else hugBytes (strBytes bef) (strBytes aft) (strBytes s)

/-- The language tag of a code fence: a successful guess overrides lang0,
a failed guess is swallowed and keeps lang0. -/
def preLang (o : Opt) (lang0 : String) (inner : String) : String :=
  match o.GuessLang with
  | some g =>
    match g inner with
    | .ok gs => gs
    | .error _ => lang0
  | none => lang0

/-! ## Table layout (the pure rendering stage of tableRows) -/

def maxcolOf (rows : List (List String)) : Nat :=
  rows.foldl (fun m cols => max m cols.length) 0

def colWidth (rows : List (List String)) (i : Nat) : Nat :=
  rows.foldl
    (fun acc cols =>
      match cols.get? i with
      | some c => max acc (stringWidth c)
      | none => acc) 0

def widthsOf (rows : List (List String)) (maxcol : Nat) : List Nat :=
  (List.range maxcol).map (colWidth rows)

/-- One cell slot: the cell right-padded to the column width, or blank
padding when the row has no cell at that column. -/
def renderCell (wd : Nat) (cell : Option String) : String :=
  match cell with
  | some c => c ++ spacesStr (wd - stringWidth c)
  | none => spacesStr wd

def renderRow (widths : List Nat) (cols : List String) : String :=
  String.join ((List.range widths.length).map
    (fun j => "|" ++ renderCell (widths.getD j 0) (cols.get? j))) ++ "|\n"

def sepRow (widths : List Nat) : String :=
  String.join (widths.map (fun wd => "|" ++ dashesStr wd)) ++ "|\n"

/-- The emission loop of tableRows: every row on its own |-separated line,
with the dash separator immediately after the first row. -/
def tableRender (rows : List (List String)) : String :=
  let widths := widthsOf rows (maxcolOf rows)
  match rows with
  | [] => ""
  | r0 :: rest =>
    renderRow widths r0 ++ sepRow widths ++ String.join (rest.map (renderRow widths))

/-! ## List bodies -/

/-- The ul/ol emission loop over the buffered list body: blank lines are
dropped, a newline precedes every kept line except at index zero. -/
def listBody : Nat → List String → String
  | _, [] => ""
  | i, l :: rest =>
    if trimSpaceGo l == "" then listBody (i + 1) rest
    else (if 0 < i then "\n" else "") ++ l ++ listBody (i + 1) rest

/-- The li emission loop: the marker is printed before the first non-blank
line only; continuation lines are indented under it. -/
def liBody (indent marker : String) : Bool → List String → String
  | _, [] => ""
  | mp, l :: rest =>
    if trimSpaceGo l == "" then liBody indent marker mp rest
    else
      (if mp then "\n    " else "") ++ indent ++ (if mp then "" else marker) ++ l ++
        liBody indent marker true rest

def hasNonblankLine (ls : List String) : Bool := ls.any (fun l => trimSpaceGo l != "")

/-- Number of hash marks for a heading tag: the digit at Data[1]. -/
def headingHashes (tag : String) : String :=
  String.mk (List.replicate ((tag.data.getD 1 '0').toNat - '0'.toNat) '#')

/-- isChildOf(c, name), with the parent's element tag threaded through the
child iteration (none when the parent is not an element). -/
def parentIs (pt : Option String) (name : String) : Bool :=
  match pt with
  | some t => goLower t == name
  | none => false

/-! ## Raw text extraction (pre, bq, raw passthrough) -/

mutual
/-- pre(node, w): text data verbatim, recursing through elements. -/
def preText : HNode → String
  | .text s => s
  | .comment _ => ""
  | .elem _ _ kids => preForest kids
  | .doc kids => preForest kids

def preForest : HForest → String
  | .nil => ""
  | .cons c rest => preText c ++ preForest rest
end

mutual
/-- bq(node, w): like pre but with U+00A0 replaced by a space in text. -/
def bqText : HNode → String
  | .text s => replaceNbsp s
  | .comment _ => ""
  | .elem _ _ kids => bqForest kids
  | .doc kids => bqForest kids

def bqForest : HForest → String
  | .nil => ""
  | .cons c rest => bqText c ++ bqForest rest
end

mutual
/-- Concatenated text-node data of a subtree, in document order. -/
def textContent : HNode → String
  | .text s => s
  | .comment _ => ""
  | .elem _ _ kids => textContentF kids
  | .doc kids => textContentF kids

def textContentF : HForest → String
  | .nil => ""
  | .cons c rest => textContent c ++ textContentF rest
end

def emptyElements : List String :=
  ["area", "base", "br", "col", "embed", "hr", "img", "input", "keygen",
   "link", "meta", "param", "source", "track", "wbr"]

mutual
/-- raw(node, w): literal-HTML serialization for script/style passthrough,
following the explicit serializer of the godown.go revision (tag,
%q-quoted attributes, children, self-closing void elements).  The
fully-featured revision delegates to the external html.Render, which
additionally entity-escapes attribute values and renders comment nodes;
no claim here exercises that difference. -/
def rawNode : HNode → String
  | .text s => s
  | .comment _ => ""
  | .doc _ => ""
  | .elem tag attrs kids =>
    "<" ++ tag ++ String.join (attrs.map (fun a => " " ++ a.1 ++ "=" ++ goQuote a.2)) ++
      (if emptyElements.contains (goLower tag) then "/>"
       else ">" ++ rawForest kids ++ "</" ++ tag ++ ">")

def rawForest : HForest → String
  | .nil => ""
  | .cons c rest => rawNode c ++ rawForest rest
end

/-! ## The traversal engine -/

mutual
/-- walk(node, w, nest, option): text emission for a text node, then the
child iteration (threading the element parent tag, the previous sibling
and the ordered-list counter through the loop). -/
def walk : HNode → Nat → Rules → Opt → String
  | .text s, _, _, o => textRender o s
  | .comment _, _, _, _ => ""
  | .elem tag _ kids, nest, r, o => walkList (some tag) none 0 kids nest r o
  | .doc kids, nest, r, o => walkList none none 0 kids nest r o

def walkList : Option String → Option HNode → Nat → HForest → Nat → Rules → Opt → String
  | _, _, _, .nil, _, _, _ => ""
  | pt, prev, n, .cons c rest, nest, r, o =>
    let p := walkChild pt prev n c nest r o
    p.1 ++ walkList pt (some c) p.2 rest nest r o

/-- One child of the loop body of walk: comment emission, recursion for
text/document nodes, and the element dispatch (extension lookup first,
then the built-in tag switch).  Returns the appended text and the updated
ordered-list counter. -/
def walkChild : Option String → Option HNode → Nat → HNode → Nat → Rules → Opt → String × Nat
  | _, _, n, .comment s, _, _, _ => ("<!--" ++ s ++ "-->\n", n)
  | _, _, n, .text s, _, _, o => (textRender o s, n)
  | _, _, n, .doc kids, nest, r, o => (walkList none none 0 kids nest r o, n)
  | pt, prev, n, .elem tag attrs kids, nest, r, o =>
    match r (goLower tag) with
    | some f => (f (.elem tag attrs kids) nest o, n)
    | none =>
      match goLower tag with
      | "a" =>
        let href := attrF attrs "href"
        let title := attrF attrs "title"
        let tl := if title != "" then "](" ++ href ++ " " ++ goQuote title ++ ")"
          else "](" ++ href ++ ")"
        (hugDelims "[" tl (walkList (some tag) none 0 kids nest r o), n)
      | "b" | "strong" => (hugDelims "**" "**" (walkList (some tag) none 0 kids nest r o), n)
      | "i" | "em" => (hugDelims "_" "_" (walkList (some tag) none 0 kids nest r o), n)
      | "del" | "s" => (hugDelims "~~" "~~" (walkList (some tag) none 0 kids nest r o), n)
      | "br" => (brFn prev o ++ "\n\n", n)
      | "p" =>
        (brFn prev o ++ walkList (some tag) none 0 kids nest r o ++ brFn prev o ++ "\n\n", n)
      | "code" =>
        (if parentIs pt "pre" then "" else "`" ++ preForest kids ++ "`", n)
      | "pre" =>
        let inner := preForest kids
        let lang := preLang o (langFromCls kids) inner
        (brFn prev o ++ "```" ++ lang ++ "\n" ++ inner ++
          (if endsWithNl inner then "" else "\n") ++ "```\n\n", n)
      | "div" => (brFn prev o ++ walkList (some tag) none 0 kids nest r o ++ "\n", n)
      | "blockquote" =>
        if hasClassF attrs "code" then
          let buf := bqForest kids
          let lang := preLang o "" buf
          (brFn prev o ++ "```" ++ lang ++ "\n" ++ trimLeftNl buf ++
            (if endsWithNl buf then "" else "\n") ++ "```\n\n", n)
        else
          let buf := walkList (some tag) none 0 kids (nest + 1) r o
          (brFn prev o ++
            String.join ((splitNl (trimSpaceGo buf)).map
              (fun l => "> " ++ trimSpaceGo l ++ "\n")) ++ "\n", n)
      | "ul" | "ol" =>
        let buf := walkList (some tag) none 0 kids (nest + 1) r { o with TrimSpace := true }
        (brFn prev o ++ listBody 0 (splitNl buf) ++ "\n" ++
          (if nest == 0 then "\n" else ""), n)
      | "li" =>
        let buf := walkList (some tag) none 0 kids 0 r o
        let lines := splitNl buf
        let marker := if parentIs pt "ul" then "* "
          else if parentIs pt "ol" then Nat.repr (n + 1) ++ ". " else ""
        let n2 := if parentIs pt "ol" && hasNonblankLine lines then n + 1 else n
        (brFn prev o ++ liBody (repeatStr "    " (nest - 1)) marker false lines ++ "\n", n2)
      | "h1" | "h2" | "h3" | "h4" | "h5" | "h6" =>
        (brFn prev o ++ headingHashes tag ++ " " ++
          walkList (some tag) none 0 kids nest r o ++ "\n\n", n)
      | "img" =>
        let src := attrF attrs "src"
        let alt := attrF attrs "alt"
        let title := attrF attrs "title"
        (if src == "" then ""
         else if title != "" then "![" ++ alt ++ "](" ++ src ++ " " ++ goQuote title ++ ")"
         else "![" ++ alt ++ "](" ++ src ++ ")", n)
      | "hr" => (brFn prev o ++ "\n---\n\n", n)
      | "table" => (brFn prev o ++ tableRender (tableSecs kids r o) ++ "\n", n)
      | "style" =>
        (if o.Style then brFn prev o ++ rawNode (.elem tag attrs kids) ++ "\n\n" else "", n)
      | "script" =>
        (if o.Script then brFn prev o ++ rawNode (.elem tag attrs kids) ++ "\n\n" else "", n)
      | _ => (walkList (some tag) none 0 kids nest r o, n)

/-- Row collection of table(): only tr nodes found under a
thead/tbody/tfoot section are kept, flattening the sectioning wrappers. -/
def tableSecs : HForest → Rules → Opt → List (List String)
  | .nil, _, _ => []
  | .cons (.elem stag _ skids) rest, r, o =>
    (if goLower stag == "thead" || goLower stag == "tbody" || goLower stag == "tfoot"
     then tableTrs skids r o else []) ++ tableSecs rest r o
  | .cons _ rest, r, o => tableSecs rest r o

/-- Within a section: keep children with non-blank Data (the filter in
table) that are tr elements (the filter in tableRows). -/
def tableTrs : HForest → Rules → Opt → List (List String)
  | .nil, _, _ => []
  | .cons (.elem ttag _ tkids) rest, r, o =>
    (if trimSpaceGo ttag != "" && goLower ttag == "tr" then [tableCells tkids r o] else []) ++
      tableTrs rest r o
  | .cons _ rest, r, o => tableTrs rest r o

/-- Cells of one row: td and th elements, each rendered by walk at depth 0. -/
def tableCells : HForest → Rules → Opt → List String
  | .nil, _, _ => []
  | .cons (.elem dtag _ dkids) rest, r, o =>
    (if goLower dtag == "td" || goLower dtag == "th"
     then [walkList (some dtag) none 0 dkids 0 r o] else []) ++ tableCells rest r o
  | .cons _ rest, r, o => tableCells rest r o
end

/-! ## The entry point -/

/-- The caller-visible option struct; customRulesMap is built by Convert.
CustomRules holds the per-tag rules already applied to the walk
continuation, in registration order. -/
structure GOption where
  GuessLang : Option (String → Except String String) := none
  Script : Bool := false
  Style : Bool := false
  TrimSpace : Bool := false
  CustomRules : List (String × RuleFn) := []

def toOpt (g : GOption) : Opt :=
  { GuessLang := g.GuessLang, Script := g.Script, Style := g.Style,
    TrimSpace := g.TrimSpace, doNotEscape := false }

/-- Building customRulesMap: successive map assignment, so a later rule
for the same tag overwrites an earlier one. -/
def buildRulesMap (crs : List (String × RuleFn)) : Rules :=
  crs.foldl (fun m p => fun k => if k == p.1 then some p.2 else m k) (fun _ => none)

/-- Convert(w, r, option): the parse result of the external parser is the
first argument; on parse failure the error is returned and nothing is
written, otherwise the document is walked and a trailing newline written.
The pair is (returned error value, text written to the sink). -/
def Convert (parsed : Except String HNode) (option : Option GOption) :
    Except String Unit × String :=
  match parsed with
  | .error e => (.error e, "")
  | .ok docNode =>
    let g := option.getD {}
    let rules := buildRulesMap g.CustomRules
    (.ok (), walk docNode 0 rules (toOpt g) ++ "\n")

end Godown

namespace Godown

/-- Boolean prefix test on character lists (for substring occurrence checks). -/
def isPrefixB : List Char → List Char → Bool
  | [], _ => true
  | _ :: _, [] => false
  | a :: as, b :: bs => a == b && isPrefixB as bs

/-- Boolean substring occurrence test on character lists. -/
def containsSub (needle : List Char) : List Char → Bool
  | [] => isPrefixB needle []
  | c :: rest => isPrefixB needle (c :: rest) || containsSub needle rest

/-- Convenience constructor for forests from lists of nodes. -/
def forestOf (l : List HNode) : HForest := l.foldr .cons .nil

/-- The fenced emission that the specification wording predicts for a
code-class blockquote: the NBSP-replaced text content placed between the
fences verbatim (with the closing fence forced onto its own line). -/
def bqClaimEmit (lang content : String) : String :=
  "```" ++ lang ++ "\n" ++ content ++ (if endsWithNl content then "" else "\n") ++ "```\n\n"

/-- Expected rendering of a run of li children of an ol: each item is the
boundary, the item body with the running counter's marker before its first
non-blank line, and a closing newline; the counter advances by one per item. -/
def olItems (o : Opt) (r : Rules) (nest : Nat) :
    Option HNode → Nat → List (List (String × String) × HForest) → String
  | _, _, [] => ""
  | prev, n, (a, k) :: items =>
    brFn prev o ++
      liBody (repeatStr "    " (nest - 1)) (Nat.repr (n + 1) ++ ". ") false
        (splitNl (walkList (some "li") none 0 k 0 r o)) ++ "\n" ++
      olItems o r nest (some (.elem "li" a k)) (n + 1) items

/-- Expected rendering of a run of li children of a ul: as olItems but with
the star marker and no counter. -/
def ulItems (o : Opt) (r : Rules) (nest : Nat) :
    Option HNode → List (List (String × String) × HForest) → String
  | _, [] => ""
  | prev, (a, k) :: items =>
    brFn prev o ++
      liBody (repeatStr "    " (nest - 1)) "* " false
        (splitNl (walkList (some "li") none 0 k 0 r o)) ++ "\n" ++
      ulItems o r nest (some (.elem "li" a k)) items

/-- A forest of li elements built from (attributes, children) pairs. -/
def mkLiForest : List (List (String × String) × HForest) → HForest
  | [] => .nil
  | (a, k) :: items => .cons (.elem "li" a k) (mkLiForest items)

/-- strings.Repeat with Go's signed count contract: a negative count makes
Go panic (modelled as none); the embedding's walk uses Nat subtraction,
which truncates where Go would panic. -/
def goRepeat (s : String) (count : Int) : Option String :=
  if count < 0 then none else some (repeatStr s count.toNat)

/-- The signed count the li emission hands to strings.Repeat: nest - 1. -/
def repeatCountLi (nest : Int) : Int := nest - 1

end Godown

namespace Godown

theorem walkList_cons (pt : Option String) (prev : Option HNode) (n : Nat) (c : HNode)
    (rest : HForest) (nest : Nat) (r : Rules) (o : Opt) :
    walkList pt prev n (.cons c rest) nest r o =
      (walkChild pt prev n c nest r o).1 ++
        walkList pt (some c) (walkChild pt prev n c nest r o).2 rest nest r o := by
  simp [walkList]

theorem walkChild_custom (pt : Option String) (prev : Option HNode) (n : Nat) (tag : String)
    (attrs : List (String × String)) (kids : HForest) (nest : Nat) (r : Rules) (o : Opt)
    (f : RuleFn) (h : r (goLower tag) = some f) :
    walkChild pt prev n (.elem tag attrs kids) nest r o = (f (.elem tag attrs kids) nest o, n) := by
  rw [walkChild, h]

end Godown

namespace Godown

theorem endsWithNl_append_nl (s : String) : endsWithNl (s ++ "\n") = true := by
  unfold endsWithNl
  rw [String.data_append]
  simp [List.getLast?_append]

/-- C5: for an input whose HTML parse fails, Convert returns that error and
writes nothing to the output sink; in the embedding, a successful parse
yields success and the traversal output followed by a single trailing
newline.  The last two conjuncts document where the real code breaks the
success half: an li rendered at nesting depth zero (a bare li parses
successfully and is walked at depth zero) has non-blank content, so the
emission reaches strings.Repeat with the signed count nest - 1 = -1, on
which Go panics instead of returning success. -/
theorem convert_error_and_trailing_newline :
    (∀ (e : String) (opt : Option GOption), Convert (.error e) opt = (.error e, "")) ∧
    (∀ (docN : HNode) (opt : Option GOption),
      Convert (.ok docN) opt =
        (.ok (), walk docN 0 (buildRulesMap (opt.getD {}).CustomRules) (toOpt (opt.getD {})) ++ "\n")) ∧
    (∀ (docN : HNode) (opt : Option GOption), endsWithNl (Convert (.ok docN) opt).2 = true) ∧
    hasNonblankLine (splitNl (walkList (some "li") none 0 (forestOf [.text "x"]) 0
      emptyRules {})) = true ∧
    goRepeat "    " (repeatCountLi 0) = none := by
  refine ⟨fun e opt => rfl, fun docN opt => rfl, fun docN opt => ?_, by decide, by decide⟩
  exact endsWithNl_append_nl _

/-- C9: calling Convert with a nil configuration pointer behaves exactly
like calling it with a zero-valued default configuration, for every parse
result, and in particular succeeds on every successfully parsed input. -/
theorem convert_nil_option_default (parsed : Except String HNode) :
    Convert parsed none = Convert parsed (some {}) := by
  cases parsed <;> rfl

/-- C6 counterexample: with trim-whitespace mode active, a block construct
with no preceding sibling invokes the boundary helper and gets no newline
at all — the boundary is not unconditional. -/
theorem boundary_first_child_counterexample :
    brFn none { TrimSpace := true } = "" ∧
    walkList none none 0 (forestOf [.elem "p" [] (forestOf [.text "x"])]) 0 emptyRules
      { TrimSpace := true } = "x\n\n" ∧
    ("" : String) ≠ "\n" := by
  refine ⟨rfl, by decide, by decide⟩

/-- C6 (amended): when trim-whitespace mode is active the boundary helper
emits a newline whenever the construct has a preceding sibling, without
inspecting that sibling's content; when there is no preceding sibling it
emits nothing. -/
theorem trim_boundary_newline (o : Opt) (h : o.TrimSpace = true) :
    brFn none o = "" ∧ ∀ p : HNode, brFn (some p) o = "\n" := by
  constructor
  · rfl
  · intro p
    unfold brFn
    rw [h]
    rfl

theorem trim_boundary_newline_witness :
    ({ TrimSpace := true } : Opt).TrimSpace = true ∧
    brFn none { TrimSpace := true } = "" ∧
    brFn (some (.text "ends in text")) { TrimSpace := true } = "\n" :=
  ⟨rfl, (trim_boundary_newline { TrimSpace := true } rfl).1,
    (trim_boundary_newline { TrimSpace := true } rfl).2 (.text "ends in text")⟩

/-- C1: when an extension rule is registered for a tag (any tag, including
one with a built-in rule such as div), every element with that tag renders
via the registered rule instead of the built-in handling — the extension
lookup takes priority over the built-in dispatch. -/
theorem extension_rule_precedence (r : Rules) (tag : String) (attrs : List (String × String))
    (kids rest : HForest) (pt : Option String) (prev : Option HNode) (n nest : Nat) (o : Opt)
    (f : RuleFn) (h : r (goLower tag) = some f) :
    walkChild pt prev n (.elem tag attrs kids) nest r o = (f (.elem tag attrs kids) nest o, n) ∧
    walkList pt prev n (.cons (.elem tag attrs kids) rest) nest r o =
      f (.elem tag attrs kids) nest o ++
        walkList pt (some (.elem tag attrs kids)) n rest nest r o := by
  have h1 := walkChild_custom pt prev n tag attrs kids nest r o f h
  refine ⟨h1, ?_⟩
  rw [walkList_cons, h1]

theorem extension_rule_precedence_witness :
    walkChild none none 0 (.elem "div" [] .nil) 0
        (buildRulesMap [("div", fun _ _ _ => "CUSTOM")]) {} = ("CUSTOM", 0) ∧
    walkList none none 0 (.cons (.elem "div" [] .nil) .nil) 0
        (buildRulesMap [("div", fun _ _ _ => "CUSTOM")]) {} = "CUSTOM" := by
  have h := extension_rule_precedence (buildRulesMap [("div", fun _ _ _ => "CUSTOM")]) "div"
    [] .nil .nil none none 0 0 {} (fun _ _ _ => "CUSTOM") rfl
  refine ⟨h.1, ?_⟩
  rw [h.2]
  rfl

theorem buildRulesMap_append_single (l : List (String × RuleFn)) (p : String × RuleFn)
    (tag : String) :
    buildRulesMap (l ++ [p]) tag = if tag == p.1 then some p.2 else buildRulesMap l tag := by
  unfold buildRulesMap
  rw [List.foldl_append]
  rfl

/-- C7: duplicates in the registered extension rules are resolved by the
last-registered rule winning — the built map agrees with the last matching
entry of the registration list, elements with that tag render via exactly
that rule, and supplying duplicates is not an error. -/
theorem duplicate_rules_last_wins :
    (∀ (crs : List (String × RuleFn)) (tag : String),
      buildRulesMap crs tag = ((crs.reverse.find? (fun p => p.1 == tag)).map Prod.snd)) ∧
    (∀ (crs : List (String × RuleFn)) (tag : String) (attrs : List (String × String))
        (kids : HForest) (pt : Option String) (prev : Option HNode) (n nest : Nat) (o : Opt)
        (f : RuleFn), buildRulesMap crs (goLower tag) = some f →
      walkChild pt prev n (.elem tag attrs kids) nest (buildRulesMap crs) o =
        (f (.elem tag attrs kids) nest o, n)) ∧
    (∀ (docN : HNode) (g : GOption), (Convert (.ok docN) (some g)).1 = .ok ()) := by
  refine ⟨?_, ?_, fun docN g => rfl⟩
  · intro crs tag
    induction crs using List.reverseRecOn with
    | nil => rfl
    | append_singleton l p ih =>
      rw [buildRulesMap_append_single, List.reverse_append]
      simp only [List.reverse_singleton, List.singleton_append, List.find?]
      by_cases htag : tag = p.1
      · simp [htag]
      · have h1 : (tag == p.1) = false := by simp [htag]
        have h2 : (p.1 == tag) = false := by
          simp only [beq_eq_false_iff_ne, ne_eq]
          exact fun h => htag h.symm
        rw [h1, h2, ih]
        simp
  · intro crs tag attrs kids pt prev n nest o f h
    exact walkChild_custom pt prev n tag attrs kids nest (buildRulesMap crs) o f h

theorem duplicate_rules_last_wins_witness :
    buildRulesMap [("t", fun _ _ _ => "ONE"), ("t", fun _ _ _ => "TWO")] "t" =
      some (fun _ _ _ => "TWO") ∧
    walkChild none none 0 (.elem "t" [] .nil) 0
      (buildRulesMap [("t", fun _ _ _ => "ONE"), ("t", fun _ _ _ => "TWO")]) {} = ("TWO", 0) := by
  refine ⟨rfl, ?_⟩
  exact (duplicate_rules_last_wins).2.1 [("t", fun _ _ _ => "ONE"), ("t", fun _ _ _ => "TWO")]
    "t" [] .nil none none 0 0 {} (fun _ _ _ => "TWO") rfl

theorem walkChild_pre (attrs : List (String × String)) (kids : HForest) (pt : Option String)
    (prev : Option HNode) (n nest : Nat) (o : Opt) :
    walkChild pt prev n (.elem "pre" attrs kids) nest emptyRules o =
      (brFn prev o ++ "```" ++ preLang o (langFromCls kids) (preForest kids) ++ "\n" ++
        preForest kids ++ (if endsWithNl (preForest kids) then "" else "\n") ++ "```\n\n", n) := by
  rfl

/-- C8: a failing language-guess callback is swallowed locally — the fence
language stays the one derived from a language-xxx class (no tag comes
from the guesser) and the error never propagates out of Convert; a
successful guess overrides the class-derived language. -/
theorem guess_error_swallowed :
    (∀ (o : Opt) (lang0 inner : String) (g : String → Except String String) (e : String),
      o.GuessLang = some g → g inner = .error e → preLang o lang0 inner = lang0) ∧
    (∀ (o : Opt) (lang0 inner : String) (g : String → Except String String) (s : String),
      o.GuessLang = some g → g inner = .ok s → preLang o lang0 inner = s) ∧
    (∀ (attrs : List (String × String)) (kids : HForest) (pt : Option String)
        (prev : Option HNode) (n nest : Nat) (o : Opt) (rest : HForest),
      walkList pt prev n (.cons (.elem "pre" attrs kids) rest) nest emptyRules o =
        (brFn prev o ++ "```" ++ preLang o (langFromCls kids) (preForest kids) ++ "\n" ++
          preForest kids ++ (if endsWithNl (preForest kids) then "" else "\n") ++ "```\n\n") ++
          walkList pt (some (.elem "pre" attrs kids)) n rest nest emptyRules o) ∧
    (∀ (docN : HNode) (g : Option GOption), (Convert (.ok docN) g).1 = .ok ()) := by
  refine ⟨?_, ?_, ?_, fun docN g => by cases g <;> rfl⟩
  · intro o lang0 inner g e hG hE
    simp [preLang, hG, hE]
  · intro o lang0 inner g s hG hS
    simp [preLang, hG, hS]
  · intro attrs kids pt prev n nest o rest
    rw [walkList_cons, walkChild_pre]

theorem guess_error_swallowed_witness :
    ({ GuessLang := some (fun _ => .error "boom") } : Opt).GuessLang =
      some (fun _ => .error "boom") ∧
    preLang { GuessLang := some (fun _ => .error "boom") } "python" "body" = "python" ∧
    preLang { GuessLang := some (fun _ => .ok "go") } "python" "body" = "go" := by
  refine ⟨rfl, ?_, ?_⟩
  · exact (guess_error_swallowed).1 _ "python" "body" (fun _ => .error "boom") "boom" rfl rfl
  · exact (guess_error_swallowed).2.1 _ "python" "body" (fun _ => .ok "go") "go" rfl rfl

end Godown

namespace Godown

theorem dropWhileHeadNot {α : Type} (p : α → Bool) :
    ∀ (l : List α) (x : α), (l.dropWhile p).head? = some x → p x = false := by
  intro l
  induction l with
  | nil => intro x h; simp [List.dropWhile] at h
  | cons a rest ih =>
    intro x h
    rw [List.dropWhile_cons] at h
    by_cases hp : p a = true
    · rw [if_pos hp] at h
      exact ih x h
    · rw [if_neg hp] at h
      simp only [List.head?_cons, Option.some.injEq] at h
      rw [← h]
      simpa using hp

theorem all_takeWhile {α : Type} (p : α → Bool) (l : List α) : (l.takeWhile p).all p = true := by
  rw [List.all_eq_true]
  intro x hx
  exact List.mem_takeWhile_imp hx

theorem coreHeadNot {α : Type} (p : α → Bool) (l : List α) :
    ∀ x, ((l.dropWhile p).reverse.dropWhile p).reverse.head? = some x → p x = false := by
  intro x hx
  rw [List.head?_reverse] at hx
  obtain ⟨pr, hpr⟩ := List.dropWhile_suffix (l := (l.dropWhile p).reverse) p
  have h2 : (pr ++ (l.dropWhile p).reverse.dropWhile p).getLast? = some x := by
    rw [List.getLast?_append, hx]
    rfl
  rw [hpr, List.getLast?_reverse] at h2
  exact dropWhileHeadNot p l x h2

theorem coreGetLastNot {α : Type} (p : α → Bool) (l : List α) :
    ∀ x, ((l.dropWhile p).reverse.dropWhile p).reverse.getLast? = some x → p x = false := by
  intro x hx
  rw [List.getLast?_reverse] at hx
  exact dropWhileHeadNot p (l.dropWhile p).reverse x hx

theorem aroundNonWsBytes_of_ne (bef aft s : String) (h : (trimSpaceGo s == "") = false) :
    aroundNonWsBytes bef aft s = hugBytes (strBytes bef) (strBytes aft) (strBytes s) := by
  unfold aroundNonWsBytes
  rw [h]
  rfl

/-- C2 counterexample: the program scans bytes, not runes.  For rendered
children "x" followed by U+2000 (a Unicode space, reachable as the output
of a text child), no byte of the UTF-8 encoding E2 80 80 satisfies the
byte-level space test, so the trailing whitespace stays inside the
delimiters instead of outside as the claim states; and a trailing U+00A0
(bytes C2 A0) is split mid-rune, byte C2 inside and byte A0 outside. -/
theorem emphasis_byte_counterexample :
    walkList (some "strong") none 0 (forestOf [.text "x\u2000"]) 0 emptyRules {} = "x\u2000" ∧
    uniSpace (Char.ofNat 0x2000) = true ∧
    aroundNonWsBytes "**" "**" "x\u2000" = strBytes "**x\u2000**" ∧
    aroundNonWsBytes "**" "**" "x\u2000" ≠ strBytes "**x**\u2000" ∧
    aroundNonWsBytes "**" "**" "x\u00A0" =
      [0x2a, 0x2a, 0x78, 0xc2, 0x2a, 0x2a, 0xa0] := by
  refine ⟨by decide, by decide, by decide, by decide, by decide⟩

/-- C2 (amended): an emphasis element's delimiters wrap the byte-level
non-whitespace extent of the UTF-8 encoding of the rendered children
(each byte tested with unicode.IsSpace of its value): entirely-whitespace
content (by the rune-level TrimSpace test) passes through unchanged with
no delimiters, otherwise the encoding splits into a byte-space prefix,
a core with non-byte-space ends wrapped by the delimiters, and a
byte-space suffix — so ASCII leading/trailing whitespace stays outside,
and strong on " foo bar " yields " **foo bar** ". -/
theorem emphasis_byte_extent :
    (∀ (bef aft s : String), trimSpaceGo s = "" → aroundNonWsBytes bef aft s = strBytes s) ∧
    (∀ (bef aft s : String), trimSpaceGo s ≠ "" →
      ∃ lead core trail : List Nat,
        strBytes s = lead ++ core ++ trail ∧
        aroundNonWsBytes bef aft s =
          lead ++ strBytes bef ++ core ++ strBytes aft ++ trail ∧
        lead.all byteIsSpace = true ∧ trail.all byteIsSpace = true ∧
        (∀ b, core.head? = some b → byteIsSpace b = false) ∧
        (∀ b, core.getLast? = some b → byteIsSpace b = false)) ∧
    walkList none none 0 (forestOf [.elem "strong" [] (forestOf [.text " foo bar "])]) 0
        emptyRules {} = " **foo bar** " ∧
    aroundNonWsBytes "**" "**" " foo bar " = strBytes " **foo bar** " ∧
    walkList none none 0 (forestOf [.elem "strong" [] (forestOf [.text "  "])]) 0
        emptyRules {} = " " ∧
    aroundNonWsBytes "**" "**" " " = strBytes " " := by
  refine ⟨?_, ?_, by decide, by decide, by decide, by decide⟩
  · intro bef aft s h
    unfold aroundNonWsBytes
    rw [show (trimSpaceGo s == "") = true from by simp [h]]
    rfl
  · intro bef aft s h
    have hb : (trimSpaceGo s == "") = false := beq_eq_false_iff_ne.mpr h
    refine ⟨(strBytes s).takeWhile byteIsSpace,
      (((strBytes s).dropWhile byteIsSpace).reverse.dropWhile byteIsSpace).reverse,
      (((strBytes s).dropWhile byteIsSpace).reverse.takeWhile byteIsSpace).reverse,
      ?_, ?_, all_takeWhile _ _, ?_,
      coreHeadNot byteIsSpace (strBytes s), coreGetLastNot byteIsSpace (strBytes s)⟩
    · rw [List.append_assoc, ← List.reverse_append, List.takeWhile_append_dropWhile,
        List.reverse_reverse, List.takeWhile_append_dropWhile]
    · rw [aroundNonWsBytes_of_ne bef aft s hb]
      rfl
    · rw [List.all_reverse]
      exact all_takeWhile byteIsSpace ((strBytes s).dropWhile byteIsSpace).reverse

theorem emphasis_byte_extent_witness :
    trimSpaceGo "\u2000" = "" ∧
    aroundNonWsBytes "**" "**" "\u2000" = strBytes "\u2000" ∧
    trimSpaceGo " x " ≠ "" ∧
    (∃ lead core trail : List Nat,
      strBytes " x " = lead ++ core ++ trail ∧
      aroundNonWsBytes "**" "**" " x " =
        lead ++ strBytes "**" ++ core ++ strBytes "**" ++ trail ∧
      lead.all byteIsSpace = true ∧ trail.all byteIsSpace = true ∧
      (∀ b, core.head? = some b → byteIsSpace b = false) ∧
      (∀ b, core.getLast? = some b → byteIsSpace b = false)) := by
  refine ⟨by decide, (emphasis_byte_extent).1 "**" "**" "\u2000" (by decide), by decide,
    (emphasis_byte_extent).2.1 "**" "**" " x " (by decide)⟩

theorem replaceNbsp_append (a b : String) :
    replaceNbsp (a ++ b) = replaceNbsp a ++ replaceNbsp b := by
  apply String.ext
  show ((a ++ b).data.map _) = _
  rw [String.data_append, List.map_append]
  rw [String.data_append]
  rfl

mutual
theorem bqText_eq : ∀ nd : HNode, bqText nd = replaceNbsp (textContent nd)
  | .text _ => rfl
  | .comment _ => rfl
  | .elem _ _ kids => bqForest_eq kids
  | .doc kids => bqForest_eq kids

theorem bqForest_eq : ∀ f : HForest, bqForest f = replaceNbsp (textContentF f)
  | .nil => rfl
  | .cons c rest => by
    show bqText c ++ bqForest rest = replaceNbsp (textContent c ++ textContentF rest)
    rw [replaceNbsp_append, bqText_eq c, bqForest_eq rest]
end

theorem walkChild_blockquote (attrs : List (String × String)) (kids : HForest)
    (pt : Option String) (prev : Option HNode) (n nest : Nat) (o : Opt) :
    walkChild pt prev n (.elem "blockquote" attrs kids) nest emptyRules o =
      (if hasClassF attrs "code" then
        (brFn prev o ++ "```" ++ preLang o "" (bqForest kids) ++ "\n" ++
          trimLeftNl (bqForest kids) ++ (if endsWithNl (bqForest kids) then "" else "\n") ++
          "```\n\n", n)
      else
        (brFn prev o ++
          String.join ((splitNl (trimSpaceGo
              (walkList (some "blockquote") none 0 kids (nest + 1) emptyRules o))).map
            (fun l => "> " ++ trimSpaceGo l ++ "\n")) ++ "\n", n)) := rfl

/-- C10 counterexample: for a code-class blockquote whose text content
begins with a newline, the emitted fenced block strips that leading
newline, so the non-NBSP text is not emitted fully verbatim as the claim
states. -/
theorem bq_code_verbatim_counterexample :
    walkChild none none 0
        (.elem "blockquote" [("class", "code")] (forestOf [.text "\nA"])) 0 emptyRules {} =
      ("```\nA\n```\n\n", 0) ∧
    replaceNbsp (textContentF (forestOf [.text "\nA"])) = "\nA" ∧
    bqClaimEmit "" (replaceNbsp (textContentF (forestOf [.text "\nA"]))) = "```\n\nA\n```\n\n" ∧
    ("```\nA\n```\n\n" : String) ≠ "```\n\nA\n```\n\n" := by
  refine ⟨by decide, by decide, by decide, by decide⟩

/-- C10 (amended): for a code-class blockquote, the extracted content is
exactly the concatenated text content with every U+00A0 replaced by an
ASCII space and no other change (no escaping, no whitespace collapsing),
and the emitted fenced block is that content with its leading newlines
stripped, a final newline appended when missing, between the fences. -/
theorem bq_code_nbsp (attrs : List (String × String)) (kids rest : HForest)
    (pt : Option String) (prev : Option HNode) (n nest : Nat) (o : Opt)
    (h : hasClassF attrs "code" = true) :
    bqForest kids = replaceNbsp (textContentF kids) ∧
    walkList pt prev n (.cons (.elem "blockquote" attrs kids) rest) nest emptyRules o =
      (brFn prev o ++ "```" ++ preLang o "" (replaceNbsp (textContentF kids)) ++ "\n" ++
        trimLeftNl (replaceNbsp (textContentF kids)) ++
        (if endsWithNl (replaceNbsp (textContentF kids)) then "" else "\n") ++ "```\n\n") ++
        walkList pt (some (.elem "blockquote" attrs kids)) n rest nest emptyRules o := by
  have hbq := bqForest_eq kids
  refine ⟨hbq, ?_⟩
  rw [walkList_cons, walkChild_blockquote, if_pos h, hbq]

theorem bq_code_nbsp_witness :
    hasClassF [("class", "code")] "code" = true ∧
    bqForest (forestOf [.text "a\u00A0b"]) =
      replaceNbsp (textContentF (forestOf [.text "a\u00A0b"])) ∧
    walkList none none 0
        (.cons (.elem "blockquote" [("class", "code")] (forestOf [.text "a\u00A0b"])) .nil) 0
        emptyRules {} = "```\na b\n```\n\n" := by
  refine ⟨by decide,
    (bq_code_nbsp [("class", "code")] (forestOf [.text "a\u00A0b"]) .nil none none 0 0 {}
      (by decide)).1, by decide⟩

end Godown

namespace Godown

theorem walkChild_li (a : List (String × String)) (k : HForest) (pt : Option String)
    (prev : Option HNode) (n nest : Nat) (o : Opt) :
    walkChild pt prev n (.elem "li" a k) nest emptyRules o =
      (brFn prev o ++
        liBody (repeatStr "    " (nest - 1))
          (if parentIs pt "ul" then "* "
           else if parentIs pt "ol" then Nat.repr (n + 1) ++ ". " else "") false
          (splitNl (walkList (some "li") none 0 k 0 emptyRules o)) ++ "\n",
       if parentIs pt "ol" &&
           hasNonblankLine (splitNl (walkList (some "li") none 0 k 0 emptyRules o))
       then n + 1 else n) := rfl

/-- C4 counterexample: an ol with two direct li children, the first of
which renders no non-blank line, renders only the marker 1. (given to the
second item) — the markers are not 1. and 2. as the claim states. -/
theorem ol_blank_item_counterexample :
    walkList none none 0
        (forestOf [.elem "ol" []
          (forestOf [.elem "li" [] .nil, .elem "li" [] (forestOf [.text "x"])])])
        0 emptyRules {} = "\n1. x\n\n" ∧
    containsSub ("1. ").data ("\n1. x\n\n").data = true ∧
    containsSub ("2. ").data ("\n1. x\n\n").data = false := by
  refine ⟨by decide, by decide, by decide⟩

/-- C4 (amended): direct li children of an ol are numbered by a counter
that starts at one for each distinct ol invocation and advances once per
li that renders at least one non-blank line, independent of nesting
depth — so when every li child renders non-blank content the markers are
1. through N. in document order; an all-blank li gets no marker and does
not advance the counter; direct li children of a ul get the star marker
instead. -/
theorem list_marker_numbering (o : Opt) (nest : Nat) :
    (∀ (items : List (List (String × String) × HForest)) (prev : Option HNode) (n : Nat),
      (∀ it ∈ items,
        hasNonblankLine (splitNl (walkList (some "li") none 0 it.2 0 emptyRules o)) = true) →
      walkList (some "ol") prev n (mkLiForest items) nest emptyRules o =
        olItems o emptyRules nest prev n items) ∧
    (∀ (items : List (List (String × String) × HForest)) (prev : Option HNode) (n : Nat),
      walkList (some "ul") prev n (mkLiForest items) nest emptyRules o =
        ulItems o emptyRules nest prev items) ∧
    (∀ (attrs : List (String × String)) (kids rest : HForest) (pt : Option String)
        (prev : Option HNode) (n : Nat),
      walkList pt prev n (.cons (.elem "ol" attrs kids) rest) nest emptyRules o =
        (brFn prev o ++
          listBody 0 (splitNl (walkList (some "ol") none 0 kids (nest + 1) emptyRules
            { o with TrimSpace := true })) ++ "\n" ++
          (if nest == 0 then "\n" else "")) ++
          walkList pt (some (.elem "ol" attrs kids)) n rest nest emptyRules o) := by
  refine ⟨?_, ?_, ?_⟩
  · intro items
    induction items with
    | nil => intro prev n _; rfl
    | cons it items ih =>
      obtain ⟨a, k⟩ := it
      intro prev n h
      have hhead := h (a, k) (List.mem_cons_self _ _)
      rw [mkLiForest, walkList_cons, walkChild_li]
      have hul : parentIs (some "ol") "ul" = false := rfl
      have hol : parentIs (some "ol") "ol" = true := rfl
      rw [hul, hol]
      simp only [Bool.false_eq_true, if_false, if_true, Bool.true_and, hhead]
      rw [ih (some (.elem "li" a k)) (n + 1)
        (fun it hit => h it (List.mem_cons_of_mem _ hit))]
      rfl
  · intro items
    induction items with
    | nil => intro prev n; rfl
    | cons it items ih =>
      obtain ⟨a, k⟩ := it
      intro prev n
      rw [mkLiForest, walkList_cons, walkChild_li]
      have hul : parentIs (some "ul") "ul" = true := rfl
      have hol : parentIs (some "ul") "ol" = false := rfl
      rw [hul, hol]
      simp only [Bool.false_eq_true, if_false, if_true, Bool.false_and]
      rw [ih (some (.elem "li" a k)) n]
      rfl
  · intro attrs kids rest pt prev n
    rw [walkList_cons]
    rfl

theorem list_marker_numbering_witness :
    (∀ it ∈ ([([], forestOf [.text "a"]), ([], forestOf [.text "b"])] :
        List (List (String × String) × HForest)),
      hasNonblankLine (splitNl (walkList (some "li") none 0 it.2 0 emptyRules
        { TrimSpace := true })) = true) ∧
    walkList (some "ol") none 0
        (mkLiForest [([], forestOf [.text "a"]), ([], forestOf [.text "b"])]) 1 emptyRules
        { TrimSpace := true } =
      olItems { TrimSpace := true } emptyRules 1 none 0
        [([], forestOf [.text "a"]), ([], forestOf [.text "b"])] ∧
    olItems { TrimSpace := true } emptyRules 1 none 0
        [([], forestOf [.text "a"]), ([], forestOf [.text "b"])] = "1. a\n\n2. b\n" := by
  refine ⟨by decide, ?_, by decide⟩
  exact (list_marker_numbering { TrimSpace := true } 1).1
    [([], forestOf [.text "a"]), ([], forestOf [.text "b"])] none 0 (by decide)

end Godown

namespace Godown

theorem le_foldlMax {α : Type} (g : α → Nat) (l : List α) :
    ∀ init : Nat, init ≤ l.foldl (fun m x => max m (g x)) init := by
  induction l with
  | nil => intro init; exact Nat.le_refl _
  | cons a rest ih =>
    intro init
    exact Nat.le_trans (Nat.le_max_left init (g a)) (ih (max init (g a)))

theorem mem_le_foldlMax {α : Type} (g : α → Nat) (l : List α) (x : α) (hx : x ∈ l) :
    ∀ init : Nat, g x ≤ l.foldl (fun m x => max m (g x)) init := by
  induction l with
  | nil => cases hx
  | cons a rest ih =>
    intro init
    rcases List.mem_cons.mp hx with h | h
    · subst h
      exact Nat.le_trans (Nat.le_max_right init (g x)) (le_foldlMax g rest _)
    · exact ih h _

theorem foldlMax_cases {α : Type} (g : α → Nat) (l : List α) :
    ∀ init : Nat, l.foldl (fun m x => max m (g x)) init = init ∨
      ∃ x ∈ l, l.foldl (fun m x => max m (g x)) init = g x := by
  induction l with
  | nil => intro init; exact Or.inl rfl
  | cons a rest ih =>
    intro init
    rcases ih (max init (g a)) with h | ⟨x, hx, hq⟩
    · rcases Nat.le_total (g a) init with hle | hle
      · left
        rw [List.foldl_cons, h]
        exact Nat.max_eq_left hle
      · right
        refine ⟨a, List.mem_cons_self _ _, ?_⟩
        rw [List.foldl_cons, h]
        exact Nat.max_eq_right hle
    · exact Or.inr ⟨x, List.mem_cons_of_mem _ hx, hq⟩

theorem colWidth_eq (rows : List (List String)) (i : Nat) :
    colWidth rows i =
      rows.foldl (fun m cols => max m (((cols.get? i).map stringWidth).getD 0)) 0 := by
  unfold colWidth
  apply List.foldl_ext
  intro a cols _
  cases h : cols.get? i <;> simp [h]

theorem widthsOf_getD (rows : List (List String)) (mc j : Nat) (h : j < mc) :
    (widthsOf rows mc).getD j 0 = colWidth rows j := by
  unfold widthsOf
  rw [List.getD_eq_getElem?_getD, List.getElem?_map, List.getElem?_range h]
  rfl

theorem stringWidth_append (a b : String) :
    stringWidth (a ++ b) = stringWidth a + stringWidth b := by
  unfold stringWidth
  rw [String.data_append, List.map_append, List.sum_append]

theorem stringWidth_spaces (n : Nat) : stringWidth (spacesStr n) = n := by
  unfold stringWidth spacesStr
  show (List.map runeWidth (List.replicate n ' ')).sum = n
  rw [List.map_replicate, List.sum_replicate]
  show n • runeWidth ' ' = n
  rw [show runeWidth ' ' = 1 from rfl, smul_eq_mul, Nat.mul_one]

theorem stringWidth_dashes (n : Nat) : stringWidth (dashesStr n) = n := by
  unfold stringWidth dashesStr
  show (List.map runeWidth (List.replicate n '-')).sum = n
  rw [List.map_replicate, List.sum_replicate]
  show n • runeWidth '-' = n
  rw [show runeWidth '-' = 1 from rfl, smul_eq_mul, Nat.mul_one]

end Godown

namespace Godown

/-- C3: for every rendered table, the column count is the maximum cell
count over all collected rows; the width of column j is the maximum
display width (wide-character aware) of any cell in that column, the
header row included; every collected row is emitted as one line of
|-separated cell slots each of display width exactly the column width,
a missing cell rendering as blank padding of that width; and a dash
separator row whose fields match each column's width immediately follows
the first emitted row. -/
theorem table_layout (rows : List (List String)) :
    (∀ cols ∈ rows, cols.length ≤ maxcolOf rows) ∧
    (rows ≠ [] → ∃ cols ∈ rows, cols.length = maxcolOf rows) ∧
    (∀ j, j < maxcolOf rows → ∀ cols ∈ rows, ∀ c, cols.get? j = some c →
      stringWidth c ≤ (widthsOf rows (maxcolOf rows)).getD j 0) ∧
    (∀ j, j < maxcolOf rows →
      (widthsOf rows (maxcolOf rows)).getD j 0 = 0 ∨
      ∃ cols ∈ rows, ∃ c, cols.get? j = some c ∧
        stringWidth c = (widthsOf rows (maxcolOf rows)).getD j 0) ∧
    (∀ cols ∈ rows, ∀ j, j < maxcolOf rows →
      stringWidth (renderCell ((widthsOf rows (maxcolOf rows)).getD j 0) (cols.get? j)) =
        (widthsOf rows (maxcolOf rows)).getD j 0) ∧
    (∀ wd : Nat, stringWidth (dashesStr wd) = wd) ∧
    (∀ (r0 : List String) (rest : List (List String)), rows = r0 :: rest →
      tableRender rows =
        renderRow (widthsOf rows (maxcolOf rows)) r0 ++
          sepRow (widthsOf rows (maxcolOf rows)) ++
          String.join (rest.map (renderRow (widthsOf rows (maxcolOf rows))))) ∧
    (∀ (attrs : List (String × String)) (kids rest : HForest) (pt : Option String)
        (prev : Option HNode) (n nest : Nat) (o : Opt),
      walkList pt prev n (.cons (.elem "table" attrs kids) rest) nest emptyRules o =
        (brFn prev o ++ tableRender (tableSecs kids emptyRules o) ++ "\n") ++
          walkList pt (some (.elem "table" attrs kids)) n rest nest emptyRules o) := by
  have hwle : ∀ j, j < maxcolOf rows → ∀ cols ∈ rows, ∀ c, cols.get? j = some c →
      stringWidth c ≤ (widthsOf rows (maxcolOf rows)).getD j 0 := by
    intro j hj cols hc c hcell
    rw [widthsOf_getD rows _ j hj, colWidth_eq]
    have h := mem_le_foldlMax (fun cols => ((cols.get? j).map stringWidth).getD 0) rows cols hc 0
    rw [hcell] at h
    simpa using h
  refine ⟨?_, ?_, hwle, ?_, ?_, stringWidth_dashes, ?_, ?_⟩
  · intro cols hc
    exact mem_le_foldlMax List.length rows cols hc 0
  · intro hne
    rcases foldlMax_cases List.length rows 0 with h0 | ⟨x, hx, heq⟩
    · match rows, hne with
      | c :: rs, _ =>
        refine ⟨c, List.mem_cons_self _ _, ?_⟩
        have hle : c.length ≤ maxcolOf (c :: rs) :=
          mem_le_foldlMax List.length (c :: rs) c (List.mem_cons_self _ _) 0
        have : maxcolOf (c :: rs) = 0 := h0
        omega
    · exact ⟨x, hx, heq.symm⟩
  · intro j hj
    rw [widthsOf_getD rows _ j hj, colWidth_eq]
    rcases foldlMax_cases (fun cols => ((cols.get? j).map stringWidth).getD 0) rows 0 with
      h0 | ⟨cols, hc, heq⟩
    · exact Or.inl h0
    · cases hcell : cols.get? j with
      | none =>
        left
        rw [heq, hcell]
        rfl
      | some c =>
        right
        refine ⟨cols, hc, c, hcell, ?_⟩
        rw [heq, hcell]
        rfl
  · intro cols hc j hj
    cases hcell : cols.get? j with
    | none =>
      exact stringWidth_spaces _
    | some c =>
      show stringWidth (c ++ spacesStr _) = _
      rw [stringWidth_append, stringWidth_spaces]
      exact Nat.add_sub_cancel' (hwle j hj cols hc c hcell)
  · intro r0 rest hrows
    subst hrows
    rfl
  · intro attrs kids rest pt prev n nest o
    rw [walkList_cons]
    rfl

theorem table_layout_witness :
    (["c", "d"] : List String) ∈ [["ab"], ["c", "d"]] ∧
    (["c", "d"] : List String).length ≤ maxcolOf [["ab"], ["c", "d"]] ∧
    (1 < maxcolOf [["ab"], ["c", "d"]] ∧
      stringWidth (renderCell
          ((widthsOf [["ab"], ["c", "d"]] (maxcolOf [["ab"], ["c", "d"]])).getD 1 0)
          ((["ab"] : List String).get? 1)) =
        (widthsOf [["ab"], ["c", "d"]] (maxcolOf [["ab"], ["c", "d"]])).getD 1 0) ∧
    tableRender [["ab"], ["c", "d"]] = "|ab| |\n|--|-|\n|c |d|\n" := by
  refine ⟨by decide, ?_, ⟨by decide, ?_⟩, by decide⟩
  · exact (table_layout [["ab"], ["c", "d"]]).1 ["c", "d"] (by decide)
  · exact (table_layout [["ab"], ["c", "d"]]).2.2.2.2.1 ["ab"] (by decide) 1 (by decide)

end Godown
